import Mathlib

/-!
Verification of `src/extract_pdf_text.py`.

The script (lines 7-14, after a dependency bootstrap that no claim is about):

  from pypdf import PdfReader
  reader = PdfReader('ro.pdf')
  with open('ro_extracted.txt', 'w', encoding='utf-8') as f:
      for page in reader.pages:
          text = page.extract_text() or ''
          f.write(text)
          f.write('\n')
  print('OK')

The pypdf library is a black box: we model a page only by what its
`extract_text()` call does (return a value, possibly Python `None`, or raise
an exception), and a document by its ordered page list.  `PdfReader('ro.pdf')`
on line 8 either succeeds (yielding a document) or raises; it runs BEFORE the
output file is opened on line 9, so a failed open touches no output.
The output file on disk is modelled as a character sequence (`List Char`);
`open(..., 'w')` truncates, each `f.write` appends, and the `with` block
closes the handle on every exit path.  An uncaught Python exception
terminates the process with exit status 1 and does not reach `print('OK')`.
-/

namespace ExtractPdfText

/-- Behaviour of one `page.extract_text()` call: it either returns a value
(`some s` for a string, `none` for Python `None`) or raises an exception. -/
inductive PageSpec where
  | ok (t : Option String)
  | raise
deriving DecidableEq, Repr

/-- A document, as the script sees it: the ordered sequence `reader.pages`. -/
abbrev Document := List PageSpec

/-- Line 11, `page.extract_text() or ''`: Python `or` replaces a falsy left
operand (`None` or the empty string) by `''`; a truthy string passes through. -/
def pyOr (t : Option String) : String :=
  match t with
  | none => ""
  | some s => if s = "" then "" else s

/-- Lines 10-13, the page loop.  Returns the list of strings passed to
`f.write`, in order, together with a flag telling whether some
`extract_text()` raised (aborting the loop right there: pages after the
raising one are never reached and nothing is written for them). -/
def pageLoop : Document → List String × Bool
  | [] => ([], false)
  | PageSpec.raise :: _ => ([], true)
  | PageSpec.ok t :: ps =>
    let rest := pageLoop ps
    (pyOr t :: "\n" :: rest.1, rest.2)

/-- Characters appended to the output file by a sequence of `f.write` calls. -/
def charsOf (ws : List String) : List Char :=
  (ws.map String.data).flatten

/-- Observable outcome of one run of the script. -/
structure RunResult where
  /-- Content of the output path after the run; `none` = no file exists. -/
  outFile : Option (List Char)
  /-- The strings passed to `f.write`, in order. -/
  writes : List String
  /-- What the script printed to stdout. -/
  stdout : String
  /-- Process exit status. -/
  exitCode : Nat
  /-- Whether the output handle is closed when the process ends (vacuously
  true when the output file was never opened). -/
  outClosed : Bool
deriving DecidableEq, Repr

/-- The whole script, lines 8-14.  `openRes` is what `PdfReader('ro.pdf')`
does (`none` = it raises), `prior` is the content of the output path before
the run (`none` = no such file).  When the open fails, the exception
propagates before line 9, so the output path is untouched; otherwise
`open(..., 'w')` truncates it, the page loop writes, the `with` block closes
the handle, and `print('OK')` runs only when no page raised. -/
def run (openRes : Option Document) (prior : Option (List Char)) : RunResult :=
  match openRes with
  | none =>
    { outFile := prior, writes := [], stdout := "",
      exitCode := 1, outClosed := true }
  | some doc =>
    let r := pageLoop doc
    { outFile := some (charsOf r.1), writes := r.1,
      stdout := if r.2 then "" else "OK\n",
      exitCode := if r.2 then 1 else 0,
      outClosed := true }

/-- The texts the loop writes when no page raises: `some ts` iff every
`extract_text()` call returns (then `ts` lists the written strings, one per
page, `None`/empty replaced by `''`), `none` iff some page raises. -/
def extractedTexts : Document → Option (List String)
  | [] => some []
  | PageSpec.raise :: _ => none
  | PageSpec.ok t :: ps => (extractedTexts ps).map (fun ts => pyOr t :: ts)

/-- Prepending a character to the first piece of a split (helper for
`lineSplit`). -/
def consHead (c : Char) : List (List Char) → List (List Char)
  | [] => [[c]]
  | l :: ls => (c :: l) :: ls

/-- Splitting a character sequence at every newline character, the way a
reader of the output file recovers its lines; always returns one more piece
than there are newline characters. -/
def lineSplit : List Char → List (List Char)
  | [] => [[]]
  | c :: cs => if c = '\n' then [] :: lineSplit cs else consHead c (lineSplit cs)

/-- Reading the output file back as its list of newline-terminated lines:
splitting at newlines and dropping the piece after the final newline. -/
def readBack (cs : List Char) : List (List Char) :=
  (lineSplit cs).dropLast

/-! ### Lemmas about the page loop -/

theorem pageLoop_append_ok (doc : Document) (rest : Document) (ts : List String)
    (h : extractedTexts doc = some ts) :
    pageLoop (doc ++ rest)
      = ((ts.flatMap fun t => [t, "\n"]) ++ (pageLoop rest).1, (pageLoop rest).2) := by
  induction doc generalizing ts with
  | nil =>
    simp only [extractedTexts, Option.some.injEq] at h
    subst h
    simp [pageLoop]
  | cons p ps ih =>
    cases p with
    | raise => simp [extractedTexts] at h
    | ok t =>
      simp only [extractedTexts, Option.map_eq_some'] at h
      obtain ⟨ts2, h2, rfl⟩ := h
      simp [pageLoop, ih ts2 h2, List.flatMap_cons]

theorem pageLoop_of_extracted (doc : Document) (ts : List String)
    (h : extractedTexts doc = some ts) :
    pageLoop doc = (ts.flatMap fun t => [t, "\n"], false) := by
  have := pageLoop_append_ok doc [] ts h
  simpa [pageLoop] using this

theorem extractedTexts_length (doc : Document) (ts : List String)
    (h : extractedTexts doc = some ts) : ts.length = doc.length := by
  induction doc generalizing ts with
  | nil =>
    simp only [extractedTexts, Option.some.injEq] at h
    subst h; rfl
  | cons p ps ih =>
    cases p with
    | raise => simp [extractedTexts] at h
    | ok t =>
      simp only [extractedTexts, Option.map_eq_some'] at h
      obtain ⟨ts2, h2, rfl⟩ := h
      simp [ih ts2 h2]

theorem extractedTexts_get (doc : Document) (ts : List String) (i : Nat)
    (t : Option String) (h : extractedTexts doc = some ts)
    (hi : doc.get? i = some (PageSpec.ok t)) : ts.get? i = some (pyOr t) := by
  induction doc generalizing ts i with
  | nil => simp [List.get?] at hi
  | cons p ps ih =>
    cases p with
    | raise => simp [extractedTexts] at h
    | ok u =>
      simp only [extractedTexts, Option.map_eq_some'] at h
      obtain ⟨ts2, h2, rfl⟩ := h
      cases i with
      | zero =>
        simp only [List.get?, Option.some.injEq, PageSpec.ok.injEq] at hi
        subst hi; rfl
      | succ j =>
        simp only [List.get?] at hi ⊢
        exact ih ts2 j h2 hi

/-! ### Lemmas about written characters and line splitting -/

theorem charsOf_cons (w : String) (ws : List String) :
    charsOf (w :: ws) = w.data ++ charsOf ws := by
  simp [charsOf]

theorem charsOf_flatMap (ts : List String) :
    charsOf (ts.flatMap fun t => [t, "\n"])
      = charsOf (ts.map fun t => t ++ "\n") := by
  induction ts with
  | nil => rfl
  | cons t ts ih =>
    simp only [List.flatMap_cons, List.map_cons, List.cons_append, List.nil_append,
      charsOf_cons, String.data_append, ih, List.append_assoc]

theorem lineSplit_ne_nil (cs : List Char) : lineSplit cs ≠ [] := by
  cases cs with
  | nil => simp [lineSplit]
  | cons c cs =>
    by_cases h : c = '\n'
    · simp [lineSplit, h]
    · simp only [lineSplit, if_neg h]
      cases lineSplit cs <;> simp [consHead]

theorem lineSplit_cons_ne (c : Char) (cs : List Char) (hc : c ≠ '\n') :
    lineSplit (c :: cs) = consHead c (lineSplit cs) := by
  simp [lineSplit, hc]

theorem lineSplit_newline_sep (xs ys : List Char) (h : '\n' ∉ xs) :
    lineSplit (xs ++ '\n' :: ys) = xs :: lineSplit ys := by
  induction xs with
  | nil => simp [lineSplit]
  | cons c cs ih =>
    have hc : c ≠ '\n' := fun e => h (e ▸ List.mem_cons_self c cs)
    have hcs : '\n' ∉ cs := fun e => h (List.mem_cons_of_mem c e)
    rw [List.cons_append, lineSplit_cons_ne c _ hc, ih hcs]
    rfl

theorem lineSplit_output (ts : List String) (h : ∀ t ∈ ts, '\n' ∉ t.data) :
    lineSplit (charsOf (ts.map fun t => t ++ "\n"))
      = ts.map String.data ++ [[]] := by
  induction ts with
  | nil => rfl
  | cons t ts ih =>
    have hdata : (t ++ "\n").data = t.data ++ '\n' :: [] := by
      rw [String.data_append]
    have ht : '\n' ∉ t.data := h t (List.mem_cons_self t ts)
    have hts : ∀ u ∈ ts, '\n' ∉ u.data := fun u hu => h u (List.mem_cons_of_mem t hu)
    simp only [List.map_cons, charsOf_cons, hdata, List.append_assoc,
      List.singleton_append, List.cons_append, List.nil_append]
    rw [lineSplit_newline_sep t.data _ ht, ih hts]

theorem pageLoop_not_raised_iff (doc : Document) :
    (pageLoop doc).2 = false ↔ (extractedTexts doc).isSome = true := by
  induction doc with
  | nil => simp [pageLoop, extractedTexts]
  | cons p ps ih => cases p <;> simp [pageLoop, extractedTexts, ih]

end ExtractPdfText

namespace ExtractPdfText

/-! ### The claims -/

/-- C1: for every document that opens successfully with N pages, the run
writes exactly N newline-terminated lines to the output file — one write of
the page's extracted text followed by one write of a newline character per
page — so the number of lines written equals the number of pages, and
(when no extracted text embeds a newline of its own) splitting the final
content at newlines yields exactly N lines plus the empty piece after the
final newline. -/
theorem C1_line_count (doc : Document) (ts : List String) (prior : Option (List Char))
    (h : extractedTexts doc = some ts) :
    (run (some doc) prior).writes = ts.flatMap (fun t => [t, "\n"]) ∧
    ts.length = doc.length ∧
    (run (some doc) prior).outFile = some (charsOf (ts.map fun t => t ++ "\n")) ∧
    ((∀ t ∈ ts, '\n' ∉ t.data) →
      (lineSplit (charsOf (ts.map fun t => t ++ "\n"))).length = doc.length + 1) := by
  have hp := pageLoop_of_extracted doc ts h
  have hlen := extractedTexts_length doc ts h
  refine ⟨?_, hlen, ?_, ?_⟩
  · simp [run, hp]
  · simp [run, hp, charsOf_flatMap]
  · intro hnl
    rw [lineSplit_output ts hnl]
    simp [hlen]

theorem C1_line_count_witness :
    (run (some [PageSpec.ok (some "Hello"), PageSpec.ok none]) none).writes
      = (["Hello", ""].flatMap fun t => [t, "\n"]) ∧
    (["Hello", ""] : List String).length
      = ([PageSpec.ok (some "Hello"), PageSpec.ok none] : Document).length ∧
    (run (some [PageSpec.ok (some "Hello"), PageSpec.ok none]) none).outFile
      = some (charsOf (["Hello", ""].map fun t => t ++ "\n")) ∧
    ((∀ t ∈ ["Hello", ""], '\n' ∉ t.data) →
      (lineSplit (charsOf (["Hello", ""].map fun t => t ++ "\n"))).length
        = ([PageSpec.ok (some "Hello"), PageSpec.ok none] : Document).length + 1) :=
  C1_line_count [PageSpec.ok (some "Hello"), PageSpec.ok none] ["Hello", ""] none (by decide)

/-- C2 (counterexample): the claim fails as stated when a page's extracted
text itself contains a newline character: for a one-page document whose
extracted text is `"a\nb"`, line 0 of the output file (splitting on newline
characters) is `"a"`, not the page's text. -/
theorem C2_order_counterexample :
    (lineSplit ((run (some [PageSpec.ok (some "a\nb")]) none).outFile.getD [])).get? 0
      ≠ some (String.data "a\nb") := by decide

/-- C2 (amended: provided no page's extracted text contains a newline
character): output line i, splitting the output file on newline characters,
equals the extracted text of page i, and the page order is preserved
end-to-end — the split is exactly the page texts in order followed by the
empty piece after the final newline. -/
theorem C2_order (doc : Document) (ts : List String) (prior : Option (List Char))
    (h : extractedTexts doc = some ts) (hnl : ∀ t ∈ ts, '\n' ∉ t.data) :
    ∃ cs, (run (some doc) prior).outFile = some cs ∧
      lineSplit cs = ts.map String.data ++ [[]] ∧
      ∀ i t, ts.get? i = some t → (lineSplit cs).get? i = some t.data := by
  have hp := pageLoop_of_extracted doc ts h
  refine ⟨charsOf (ts.map fun t => t ++ "\n"), ?_, lineSplit_output ts hnl, ?_⟩
  · simp [run, hp, charsOf_flatMap]
  · intro i t hit
    rw [lineSplit_output ts hnl]
    have hlt : i < ts.length := by
      by_contra hge
      rw [List.get?_eq_none.2 (Nat.le_of_not_lt hge)] at hit
      exact Option.noConfusion hit
    rw [List.get?_append (by simpa using hlt), List.get?_map, hit]
    rfl

theorem C2_order_witness :
    ∃ cs, (run (some [PageSpec.ok (some "Hi"), PageSpec.ok (some "yo")]) none).outFile
        = some cs ∧
      lineSplit cs = ["Hi", "yo"].map String.data ++ [[]] ∧
      ∀ i t, (["Hi", "yo"] : List String).get? i = some t
        → (lineSplit cs).get? i = some t.data :=
  C2_order [PageSpec.ok (some "Hi"), PageSpec.ok (some "yo")] ["Hi", "yo"] none
    (by decide) (by decide)

/-- C3: a page whose extraction returns no text (Python `None` or the empty
string) has the empty string substituted and produces an empty line at its
position; the run still succeeds (exit 0, `OK` printed), the page is not
skipped, and the line-count invariant (one written line per page) holds. -/
theorem C3_empty_page (doc : Document) (ts : List String) (prior : Option (List Char))
    (i : Nat) (t : Option String) (h : extractedTexts doc = some ts)
    (hi : doc.get? i = some (PageSpec.ok t)) (ht : t = none ∨ t = some "") :
    ts.get? i = some "" ∧
    (run (some doc) prior).exitCode = 0 ∧
    (run (some doc) prior).stdout = "OK\n" ∧
    ts.length = doc.length := by
  have hp := pageLoop_of_extracted doc ts h
  have hg := extractedTexts_get doc ts i t h hi
  have hor : pyOr t = "" := by
    rcases ht with rfl | rfl <;> rfl
  exact ⟨hor ▸ hg, by simp [run, hp], by simp [run, hp],
    extractedTexts_length doc ts h⟩

theorem C3_empty_page_witness :
    (["x", ""] : List String).get? 1 = some "" ∧
    (run (some [PageSpec.ok (some "x"), PageSpec.ok none]) none).exitCode = 0 ∧
    (run (some [PageSpec.ok (some "x"), PageSpec.ok none]) none).stdout = "OK\n" ∧
    (["x", ""] : List String).length
      = ([PageSpec.ok (some "x"), PageSpec.ok none] : Document).length :=
  C3_empty_page [PageSpec.ok (some "x"), PageSpec.ok none] ["x", ""] none 1 none
    (by decide) (by decide) (Or.inl rfl)

/-- C4: when opening the document fails (`PdfReader` raises on line 8,
before the output file is opened on line 9), the run aborts before any
output is written: nothing is written, the content at the output path is
whatever it was before (in particular no file is created when none
existed), nothing is printed, and the process exits non-zero. -/
theorem C4_open_failed (prior : Option (List Char)) :
    (run none prior).outFile = prior ∧
    (run none prior).writes = [] ∧
    (run none prior).exitCode ≠ 0 ∧
    (run none prior).stdout = "" := by
  refine ⟨rfl, rfl, ?_, rfl⟩
  simp [run]

theorem C4_open_failed_witness :
    (run none none).outFile = none ∧
    (run none none).writes = [] ∧
    (run none none).exitCode ≠ 0 ∧
    (run none none).stdout = "" :=
  C4_open_failed none

/-- C5 (counterexample): the round-trip claim fails as stated when a page's
(non-empty) extracted text contains a newline character: for a one-page
document with text `"x\ny"`, reading the output file back as
newline-terminated lines yields two lines, not the original page text. -/
theorem C5_roundtrip_counterexample :
    readBack ((run (some [PageSpec.ok (some "x\ny")]) none).outFile.getD [])
      ≠ [String.data "x\ny"] := by decide

/-- C5 (amended: provided additionally that no page's extracted text
contains a newline character): for a document where every page's extracted
text is non-empty, the round trip — extract to the output file, then read
the file back as newline-terminated lines — recovers each page's text
unchanged, modulo the trailing newline appended per page. -/
theorem C5_roundtrip (doc : Document) (ts : List String) (prior : Option (List Char))
    (h : extractedTexts doc = some ts) (hne : ∀ t ∈ ts, t ≠ "")
    (hnl : ∀ t ∈ ts, '\n' ∉ t.data) :
    ∃ cs, (run (some doc) prior).outFile = some cs ∧
      readBack cs = ts.map String.data := by
  have hp := pageLoop_of_extracted doc ts h
  refine ⟨charsOf (ts.map fun t => t ++ "\n"), ?_, ?_⟩
  · simp [run, hp, charsOf_flatMap]
  · rw [readBack, lineSplit_output ts hnl]
    simp

theorem C5_roundtrip_witness :
    ∃ cs, (run (some [PageSpec.ok (some "Hello"), PageSpec.ok (some "World")]) none).outFile
        = some cs ∧
      readBack cs = (["Hello", "World"] : List String).map String.data :=
  C5_roundtrip [PageSpec.ok (some "Hello"), PageSpec.ok (some "World")]
    ["Hello", "World"] none (by decide) (by decide) (by decide)

/-- C6: the conversion is deterministic and idempotent — for the same opened
document (the library returning the same per-page results), the whole
observable outcome, in particular the bytes of the output file, is identical
across runs, regardless of the content at the output path before each run. -/
theorem C6_deterministic (doc : Document) (p1 p2 : Option (List Char)) :
    run (some doc) p1 = run (some doc) p2 := rfl

theorem C6_deterministic_witness :
    run (some [PageSpec.ok (some "A")]) (some ['z', 'z'])
      = run (some [PageSpec.ok (some "A")]) none :=
  C6_deterministic [PageSpec.ok (some "A")] (some ['z', 'z']) none

/-- C7: when the input opens successfully, the output file is created fresh
(its content is exactly what this run wrote, independent of any prior
content at the path), it receives exactly one appended text-plus-newline
segment per page, and the handle is closed on every exit path — also when
some page raises. -/
theorem C7_fresh_output (doc : Document) (ts : List String) (prior : Option (List Char))
    (h : extractedTexts doc = some ts) :
    (run (some doc) prior).outFile = some (charsOf ((run (some doc) prior).writes)) ∧
    (run (some doc) prior).writes = ts.flatMap (fun t => [t, "\n"]) ∧
    charsOf ((run (some doc) prior).writes) = charsOf (ts.map fun t => t ++ "\n") ∧
    (run (some doc) prior).outClosed = true ∧
    (∀ doc2 : Document, (run (some doc2) prior).outClosed = true) ∧
    (∀ p2 : Option (List Char), run (some doc) p2 = run (some doc) prior) := by
  have hp := pageLoop_of_extracted doc ts h
  exact ⟨by simp [run], by simp [run, hp], by simp [run, hp, charsOf_flatMap],
    by simp [run], fun doc2 => by simp [run], fun p2 => rfl⟩

theorem C7_fresh_output_witness :
    (run (some [PageSpec.ok none]) (some ['q'])).outFile
        = some (charsOf ((run (some [PageSpec.ok none]) (some ['q'])).writes)) ∧
    (run (some [PageSpec.ok none]) (some ['q'])).writes
        = ([""].flatMap fun t => [t, "\n"]) ∧
    charsOf ((run (some [PageSpec.ok none]) (some ['q'])).writes)
        = charsOf ([""].map fun t => t ++ "\n") ∧
    (run (some [PageSpec.ok none]) (some ['q'])).outClosed = true ∧
    (∀ doc2 : Document, (run (some doc2) (some ['q'])).outClosed = true) ∧
    (∀ p2 : Option (List Char),
      run (some [PageSpec.ok none]) p2 = run (some [PageSpec.ok none]) (some ['q'])) :=
  C7_fresh_output [PageSpec.ok none] [""] (some ['q']) (by decide)

/-- C8: `OK` is printed exactly when every page was processed and written
without error, and exactly then the exit status is 0; on a failed open
nothing is printed and the exit status is 1, so `OK` never appears on a
fatal failure. -/
theorem C8_ok_iff_success (doc : Document) (prior : Option (List Char)) :
    ((run (some doc) prior).stdout = "OK\n" ↔ (extractedTexts doc).isSome = true) ∧
    ((run (some doc) prior).exitCode = 0 ↔ (extractedTexts doc).isSome = true) ∧
    (run none prior).stdout = "" ∧
    (run none prior).exitCode = 1 := by
  have hiff := pageLoop_not_raised_iff doc
  rcases hb : (pageLoop doc).2 with _ | _
  · have hs : (extractedTexts doc).isSome = true := hiff.mp hb
    refine ⟨?_, ?_, rfl, rfl⟩ <;> simp [run, hb, hs]
  · have hs : (extractedTexts doc).isSome = false := by
      cases hsome : (extractedTexts doc).isSome
      · rfl
      · exfalso
        rw [hiff.mpr hsome] at hb
        exact Bool.noConfusion hb
    refine ⟨?_, ?_, rfl, rfl⟩ <;> simp [run, hb, hs]

theorem C8_ok_iff_success_witness :
    ((run (some [PageSpec.raise]) none).stdout = "OK\n"
        ↔ (extractedTexts [PageSpec.raise]).isSome = true) ∧
    ((run (some [PageSpec.raise]) none).exitCode = 0
        ↔ (extractedTexts [PageSpec.raise]).isSome = true) ∧
    (run none none).stdout = "" ∧
    (run none none).exitCode = 1 :=
  C8_ok_iff_success [PageSpec.raise] none

/-- C9: a successfully opened document with zero pages is a success: the
output file is created (truncated) but left empty, `OK` is printed, and the
exit status is 0 — the N-line invariant holds vacuously at N = 0. -/
theorem C9_zero_pages (prior : Option (List Char)) :
    run (some []) prior
      = { outFile := some [], writes := [], stdout := "OK\n",
          exitCode := 0, outClosed := true } := rfl

theorem C9_zero_pages_witness :
    run (some []) (some ['o', 'l', 'd'])
      = { outFile := some [], writes := [], stdout := "OK\n",
          exitCode := 0, outClosed := true } :=
  C9_zero_pages (some ['o', 'l', 'd'])

/-- C10: when extraction raises on page i (after pages 0..i-1 extracted
without error, yielding texts `ts`), the run aborts without printing `OK`
and exits non-zero; the output file exists, is closed, and contains exactly
the newline-terminated lines for pages 0..i-1 — nothing is written for page
i or any later page. -/
theorem C10_raise_aborts (saf : Document) (ts : List String) (rest : Document)
    (prior : Option (List Char)) (h : extractedTexts saf = some ts) :
    (run (some (saf ++ PageSpec.raise :: rest)) prior).writes
        = ts.flatMap (fun t => [t, "\n"]) ∧
    (run (some (saf ++ PageSpec.raise :: rest)) prior).outFile
        = some (charsOf (ts.map fun t => t ++ "\n")) ∧
    (run (some (saf ++ PageSpec.raise :: rest)) prior).stdout ≠ "OK\n" ∧
    (run (some (saf ++ PageSpec.raise :: rest)) prior).exitCode = 1 ∧
    (run (some (saf ++ PageSpec.raise :: rest)) prior).outClosed = true ∧
    ts.length = saf.length := by
  have hp := pageLoop_append_ok saf (PageSpec.raise :: rest) ts h
  rw [show pageLoop (PageSpec.raise :: rest) = ([], true) from rfl] at hp
  refine ⟨?_, ?_, ?_, ?_, ?_, extractedTexts_length saf ts h⟩
  · simp [run, hp]
  · simp [run, hp, charsOf_flatMap]
  · simp [run, hp]
  · simp [run, hp]
  · simp [run]

theorem C10_raise_aborts_witness :
    (run (some ([PageSpec.ok (some "A")] ++ PageSpec.raise :: [PageSpec.ok (some "B")])) none).writes
        = (["A"].flatMap fun t => [t, "\n"]) ∧
    (run (some ([PageSpec.ok (some "A")] ++ PageSpec.raise :: [PageSpec.ok (some "B")])) none).outFile
        = some (charsOf (["A"].map fun t => t ++ "\n")) ∧
    (run (some ([PageSpec.ok (some "A")] ++ PageSpec.raise :: [PageSpec.ok (some "B")])) none).stdout
        ≠ "OK\n" ∧
    (run (some ([PageSpec.ok (some "A")] ++ PageSpec.raise :: [PageSpec.ok (some "B")])) none).exitCode
        = 1 ∧
    (run (some ([PageSpec.ok (some "A")] ++ PageSpec.raise :: [PageSpec.ok (some "B")])) none).outClosed
        = true ∧
    (["A"] : List String).length = ([PageSpec.ok (some "A")] : Document).length :=
  C10_raise_aborts [PageSpec.ok (some "A")] ["A"] [PageSpec.ok (some "B")] none (by decide)

end ExtractPdfText
